import Mathlib

/-!
Verification of the djangoseo backend framework (file `djangoseo/backends.py`
and `djangoseo/templatetags/seo.py`) against its natural-language
specification.  Each Python construct that the claims touch is translated
into an executable Lean definition; stateful behaviour (database stores,
mutable context dictionaries) is modelled by explicit state passing.
-/

namespace DjangoSeo

/-! ## Python value model

A stored metadata field in the source is either Python `None` or a string
(the metadata fields are `CharField`/`TextField`-like).  Python truthiness
(`if value:`) on such a value is: `None` and the empty string are falsy.
-/

/-- A Python value as it appears in metadata fields: `None` or a string. -/
inductive Value where
  | none
  | str (s : String)
deriving DecidableEq, Repr

/-- Python truthiness of a field value: `None` and `""` are falsy. -/
def Value.truthy : Value → Bool
  | .none => false
  | .str s => s ≠ ""

/-! ## `MetadataBaseModel._resolve_value` (backends.py lines 42-74)

The metadata definition (`self._metadata._meta.elements`) maps field names
to elements, each with an `editable` flag and a `populate_from`
specification.  `populate_from` is either the `NotSet` sentinel, a Python
callable, a `Literal` wrapper, or the name of another field (an alias).
The record itself supplies the stored field values (`getattr(self, name)`)
and the variant-specific keyword arguments `self._populate_from_kwargs()`.
Recursion through aliases is embedded with explicit fuel; `Option.none` in
the result marks fuel exhaustion (the Python original would recurse
forever on a cyclic alias chain).
-/

/-- Keyword arguments passed to a populate-from callable
(`self._populate_from_kwargs()`). -/
abbrev Kwargs := List (String × Value)

/-- A metadata record: its stored field values (`getattr(self, name)`) and
the kwargs produced by the variant-specific `_populate_from_kwargs`. -/
structure Record where
  stored : String → Value
  kwargs : Kwargs

/-- The `populate_from` specification of a declared field. -/
inductive PopulateFrom where
  | notSet
  | call (f : Record → Kwargs → Value)
  | literal (v : Value)
  | alias (other : String)

/-- One entry of `self._metadata._meta.elements`. -/
structure Element where
  editable : Bool
  populate_from : PopulateFrom

/-- An attribute found on the metadata definition object (step 3 of the
resolution chain, backends.py lines 63-74): a plain value, a callable with
`im_self` set (invoked as `value(self)`), or a callable without it
(invoked as `value(self._metadata)`, whose result depends only on the
definition object, so we store that result). -/
inductive MetaAttr where
  | plain (v : Value)
  | boundMethod (f : Record → Value)
  | unboundMethod (v : Value)

/-- The metadata definition: declared elements plus the remaining
attributes of the `_metadata` object (absent attribute = `AttributeError`,
which the source turns into an implicit `None` return). -/
structure MetaModel where
  elements : String → Option Element
  attrs : String → Option MetaAttr

/-- Step 3 of `_resolve_value`: attribute lookup on `self._metadata`
(backends.py lines 63-74).  A missing attribute makes the method fall off
the end and return Python `None`. -/
def attrStep (m : MetaModel) (rec : Record) (name : String) : Value :=
  match m.attrs name with
  | Option.none => Value.none
  | some (.plain v) => v
  | some (.boundMethod f) => f rec
  | some (.unboundMethod v) => v

/-- `MetadataBaseModel._resolve_value` (backends.py lines 42-74).
For a declared element: an editable field with a truthy stored value is
returned verbatim; otherwise `populate_from` is consulted (callable /
`Literal` / alias / `NotSet`); `NotSet` and undeclared names fall through
to attribute lookup on the metadata definition.  `Option.none` is returned
only when the alias-recursion fuel runs out. -/
def MetadataBaseModel._resolve_value (m : MetaModel) (rec : Record) :
    Nat → String → Option Value
  | 0, _ => Option.none
  | fuel + 1, name =>
    match m.elements name with
    | some element =>
      if element.editable && (rec.stored name).truthy then
        some (rec.stored name)
      else
        match element.populate_from with
        | .call f => some (f rec rec.kwargs)
        | .literal v => some v
        | .alias other => MetadataBaseModel._resolve_value m rec fuel other
        | .notSet => some (attrStep m rec name)
    | Option.none => some (attrStep m rec name)

/-! ## `Options` and `MetadataBackend.get_unique_together`
(backends.py lines 156-167)

`Options` models the seo `Options` configuration value consumed by the
backends: the three axis flags and the ordered list of active backend
names. -/

/-- The configuration value object consulted by the backends. -/
structure Options where
  use_sites : Bool
  use_i18n : Bool
  use_subdomains : Bool
  backends : List String
deriving DecidableEq, Repr

/-- `MetadataBackend.get_unique_together` (backends.py lines 156-167).
`unique_together` is the backend class attribute, a list of field-name
tuples; for each tuple the enabled axis fields are appended in the fixed
order `_site`, `_language`, `_subdomain`. -/
def MetadataBackend.get_unique_together
    (unique_together : List (List String)) (options : Options) :
    List (List String) :=
  unique_together.map fun ut_set =>
    let ut_set := if options.use_sites then ut_set ++ ["_site"] else ut_set
    let ut_set := if options.use_i18n then ut_set ++ ["_language"] else ut_set
    if options.use_subdomains then ut_set ++ ["_subdomain"] else ut_set

/-- Modelled from the spec wording of C7, for comparison with the source
function: the suffix of axis fields that the claim says is appended to
each declared tuple, one axis field per enabled axis. -/
def axisSuffix (options : Options) : List String :=
  (if options.use_sites then ["_site"] else [])
    ++ (if options.use_i18n then ["_language"] else [])
    ++ (if options.use_subdomains then ["_subdomain"] else [])

/-! ## `ModelBackend.validate` (backends.py lines 561-571)

Python raises on `list.index` when the element is absent (`ValueError`,
caught and re-raised as the installation error); `'modelinstance'` is
looked up first, mirroring Python evaluation order of the comparison
`options.backends.index('modelinstance') > options.backends.index('model')`.
The result is `Except`: `error` models the exception that aborts
configuration construction. -/

/-- `ModelBackend.validate` (backends.py lines 561-571). -/
def ModelBackend.validate (options : Options) : Except String Unit :=
  match options.backends.findIdx? (· == "modelinstance") with
  | Option.none =>
    .error "Metadata backend modelinstance must be installed in order to use model backend"
  | some i =>
    match options.backends.findIdx? (· == "model") with
    | Option.none =>
      .error "Metadata backend modelinstance must be installed in order to use model backend"
    | some j =>
      if i > j then
        .error "Metadata backend modelinstance must come before model backend"
      else
        .ok ()

/-! ## `ModelInstanceMetadataBase.save` (backends.py lines 456-466)

The persisted table is modelled as a list of rows; `super().save(...)`
inserts the row unless the composite uniqueness constraint derived by
`get_unique_together` is violated, in which case the database raises
`IntegrityError` (modelled as the `Except.error` branch).  The
`ModelInstanceBackend` declares `unique_together =
(("_path",), ("_content_type", "_object_id"))` (backends.py line 374).
-/

/-- A ModelInstance metadata row.  `content_object_url` is the result of
`self._content_object.get_absolute_url` when the linked object exposes
one (`Option.none` models the `AttributeError` branch of `save`). -/
structure MIRow where
  _path : String
  _content_type : Nat
  _object_id : Nat
  _site : Option Nat := Option.none
  _language : Option String := Option.none
  _subdomain : Option String := Option.none
  content_object_url : Option String := Option.none
deriving DecidableEq, Repr

/-- Field access by column name, used to evaluate the uniqueness tuples
produced by `get_unique_together` against a row. -/
def MIRow.field (r : MIRow) : String → Option String
  | "_path" => some r._path
  | "_content_type" => some (toString r._content_type)
  | "_object_id" => some (toString r._object_id)
  | "_site" => r._site.map toString
  | "_language" => r._language
  | "_subdomain" => r._subdomain
  | _ => Option.none

/-- The `unique_together` declaration of `ModelInstanceBackend`
(backends.py line 374). -/
def ModelInstanceBackend.unique_together : List (List String) :=
  [["_path"], ["_content_type", "_object_id"]]

/-- Two rows collide when they agree on every field of at least one of
the derived uniqueness tuples. -/
def uniqueConflict (uts : List (List String)) (a b : MIRow) : Bool :=
  uts.any fun ut => ut.all fun f => a.field f == b.field f

/-- `self._path = self._content_object.get_absolute_url()` when the linked
object exposes a URL; otherwise the `AttributeError` is passed over and
the row is left unchanged (backends.py lines 457-462). -/
def MIRow.derivePath (r : MIRow) : MIRow :=
  match r.content_object_url with
  | some u => { r with _path := u }
  | Option.none => r

/-- The database insert performed by `super().save(...)`: raise
`IntegrityError` when the row collides with a persisted one on a derived
uniqueness tuple, append it otherwise. -/
def djangoSuperSave (uts : List (List String)) (store : List MIRow)
    (r : MIRow) : Except String (List MIRow) :=
  if store.any fun ex => uniqueConflict uts ex r then .error "IntegrityError"
  else .ok (store ++ [r])

/-- `ModelInstanceMetadataBase.save` (backends.py lines 456-466): derive
`_path` from the linked object, then insert; an `IntegrityError` from the
insert is caught and discarded (`except IntegrityError: pass`), leaving
the store untouched and surfacing no error. -/
def ModelInstanceMetadataBase.save (options : Options) (store : List MIRow)
    (r : MIRow) : Except String (List MIRow) :=
  let r := r.derivePath
  let uts := MetadataBackend.get_unique_together
    ModelInstanceBackend.unique_together options
  match djangoSuperSave uts store r with
  | .ok s => .ok s
  | .error _ => .ok store

/-! ## Path canonicalization (backends.py lines 254-275,
templatetags/seo.py lines 44-56)

`PathMetadataBase.save` and `MetadataNode.render` run the same
canonicalization over the stored/requested path, built from the standard
library helpers `urlparse`, `parse_qsl`, `urlencode` and
`os.path.join`.  These collaborators are embedded below following the
CPython implementations the source imports (ASCII model: a `%XX` escape
stands for one code point, which covers every input the engine
handles). -/

/-- Characters allowed in a URL scheme (CPython `scheme_chars`). -/
def scheme_chars : List Char :=
  "abcdefghijklmnopqrstuvwxyzABCDEFGHIJKLMNOPQRSTUVWXYZ0123456789+-.".toList

/-- Split a character list at the first occurrence of `c`, dropping it. -/
def splitFirst (c : Char) : List Char → Option (List Char × List Char)
  | [] => Option.none
  | x :: xs =>
    if x = c then some ([], xs)
    else (splitFirst c xs).map fun p => (x :: p.1, p.2)

/-- CPython `_splitnetloc`: the netloc extends to the next `/`, `?` or
`#`. -/
def splitNetloc : List Char → List Char × List Char
  | [] => ([], [])
  | x :: xs =>
    if x = '/' ∨ x = '?' ∨ x = '#' then ([], x :: xs)
    else
      let p := splitNetloc xs
      (x :: p.1, p.2)

/-- Split a character list around its last slash: the prefix including
that slash, and the remainder. -/
def splitLastSlash : List Char → Option (List Char × List Char)
  | [] => Option.none
  | x :: xs =>
    match splitLastSlash xs with
    | some p => some (x :: p.1, p.2)
    | Option.none => if x = '/' then some ([x], xs) else Option.none

/-- CPython `_splitparams`: parameters are split off the last path
segment only (the `;` is searched for from the last slash on). -/
def _splitparams (l : List Char) : List Char × List Char :=
  match splitLastSlash l with
  | some (pre, seg) =>
    match splitFirst ';' seg with
    | some (a, b) => (pre ++ a, b)
    | Option.none => (l, [])
  | Option.none =>
    match splitFirst ';' l with
    | some (a, b) => (a, b)
    | Option.none => (l, [])

/-- Schemes whose URLs may carry parameters (CPython `uses_params`);
it includes the empty scheme. -/
def uses_params : List String :=
  ["", "ftp", "hdl", "prospero", "http", "imap", "https", "shttp",
   "rtsp", "rtspu", "sip", "sips", "mms", "sftp", "tel"]

/-- The six components of a parsed URL. -/
structure ParseResult where
  scheme : String
  netloc : String
  path : String
  params : String
  query : String
  fragment : String
deriving DecidableEq, Repr

/-- `urlparse` (CPython): the scheme is a non-empty run of scheme
characters before a `:`, the netloc follows `//`, the fragment follows
the first `#`, the query follows the first `?`, and parameters are split
off the last path segment when the scheme admits them. -/
def urlparse (url : String) : ParseResult :=
  let l := url.toList
  let sp :=
    match splitFirst ':' l with
    | some (pre, post) =>
      if pre ≠ [] ∧ pre.all (fun c => scheme_chars.contains c) then
        (pre.map Char.toLower, post)
      else ([], l)
    | Option.none => ([], l)
  let scheme := String.mk sp.1
  let np :=
    if sp.2.take 2 = ['/', '/'] then splitNetloc (sp.2.drop 2)
    else ([], sp.2)
  let fp :=
    match splitFirst '#' np.2 with
    | some (a, b) => (a, b)
    | Option.none => (np.2, [])
  let qp :=
    match splitFirst '?' fp.1 with
    | some (a, b) => (a, b)
    | Option.none => (fp.1, [])
  let pp :=
    if uses_params.contains scheme ∧ qp.1.contains ';' then
      _splitparams qp.1
    else (qp.1, [])
  { scheme := scheme, netloc := String.mk np.1,
    path := String.mk pp.1, params := String.mk pp.2,
    query := String.mk qp.2, fragment := String.mk fp.2 }

/-- `urlunparse`/`urlunsplit` (CPython): reassemble the components;
this is what `geturl()` calls on a parse result. -/
def urlunparse (p : ParseResult) : String :=
  let url := if p.params ≠ "" then p.path ++ ";" ++ p.params else p.path
  let url :=
    if p.netloc ≠ "" ∨ url.toList.take 2 = ['/', '/'] then
      "//" ++ p.netloc
        ++ (if url ≠ "" ∧ url.toList.take 1 ≠ ['/'] then "/" ++ url else url)
    else url
  let url := if p.scheme ≠ "" then p.scheme ++ ":" ++ url else url
  let url := if p.query ≠ "" then url ++ "?" ++ p.query else url
  if p.fragment ≠ "" then url ++ "#" ++ p.fragment else url

/-- Hexadecimal value of a digit character, case-insensitive. -/
def hexVal (c : Char) : Option Nat :=
  if '0' ≤ c ∧ c ≤ '9' then some (c.toNat - '0'.toNat)
  else if 'a' ≤ c ∧ c ≤ 'f' then some (c.toNat - 'a'.toNat + 10)
  else if 'A' ≤ c ∧ c ≤ 'F' then some (c.toNat - 'A'.toNat + 10)
  else Option.none

/-- `unquote` at the character level: decode `%XX` escapes, leave
malformed escapes alone. -/
def unquoteChars : List Char → List Char
  | [] => []
  | '%' :: a :: b :: rest =>
    match hexVal a, hexVal b with
    | some x, some y => Char.ofNat (16 * x + y) :: unquoteChars rest
    | _, _ => '%' :: unquoteChars (a :: b :: rest)
  | c :: rest => c :: unquoteChars rest

/-- Split a character list on every occurrence of `c` (the behaviour of
`str.split` with a one-character separator). -/
def splitOnChar (c : Char) : List Char → List (List Char)
  | [] => [[]]
  | x :: xs =>
    let r := splitOnChar c xs
    if x = c then [] :: r
    else
      match r with
      | [] => [[x]]
      | h :: t => (x :: h) :: t

/-- `parse_qsl` (CPython, default flags): split the query on `&` and
`;`, skip empty chunks, chunks without `=` and chunks with an empty
value, then replace `+` by space and percent-decode names and values. -/
def parse_qsl (qs : String) : List (String × String) :=
  let pairs := ((splitOnChar '&' qs.toList).map fun s1 =>
    splitOnChar ';' s1).flatten
  pairs.filterMap fun name_value =>
    if name_value = [] then Option.none
    else
      match splitFirst '=' name_value with
      | Option.none => Option.none
      | some (n, v) =>
        if v = [] then Option.none
        else
          some
            (String.mk (unquoteChars
              (n.map fun c => if c = '+' then ' ' else c)),
             String.mk (unquoteChars
              (v.map fun c => if c = '+' then ' ' else c)))

/-- The characters `quote` never escapes: letters, digits and `_.-~`. -/
def alwaysSafe (c : Char) : Bool :=
  c.isAlpha || c.isDigit || c = '_' || c = '.' || c = '-' || c = '~'

/-- Uppercase hexadecimal digit of `n < 16`. -/
def hexDigit (n : Nat) : Char :=
  if n < 10 then Char.ofNat ('0'.toNat + n)
  else Char.ofNat ('A'.toNat + (n - 10))

/-- `quote_plus` (ASCII model): spaces become `+`, safe characters pass
through, any other character becomes the `%XX` escape of its code point
modulo 256. -/
def quote_plus (s : String) : String :=
  String.mk ((s.toList.map fun c =>
    if c = ' ' then ['+']
    else if alwaysSafe c then [c]
    else ['%', hexDigit (c.toNat % 256 / 16),
          hexDigit (c.toNat % 256 % 16)]).flatten)

/-- `urlencode` over a sequence of pairs (CPython, without `doseq`). -/
def urlencode (query : List (String × String)) : String :=
  String.intercalate "&"
    (query.map fun kv => quote_plus kv.1 ++ "=" ++ quote_plus kv.2)

/-- Lexicographic comparison of character lists by code point — the
order Python string comparison uses. -/
def charListLe : List Char → List Char → Bool
  | [], _ => true
  | _ :: _, [] => false
  | a :: as, b :: bs =>
    if a.toNat < b.toNat then true
    else if b.toNat < a.toNat then false
    else charListLe as bs

/-- The key order `sorted(..., key=lambda tup: tup[0])` sorts by. -/
def qslLe (a b : String × String) : Prop :=
  charListLe a.1.toList b.1.toList = true

/-- The corresponding strict key order, used in uniqueness arguments. -/
def qslLt (a b : String × String) : Prop :=
  charListLe b.1.toList a.1.toList = false

instance : DecidableRel qslLe := fun a b =>
  Bool.decEq (charListLe a.1.toList b.1.toList) true

/-- Python `sorted(query_string, key=lambda tup: tup[0])`: a stable sort
by the first component (`insertionSort` is stable, like `sorted`). -/
def sortByKey (l : List (String × String)) : List (String × String) :=
  List.insertionSort qslLe l

/-- `os.path.join(p, '', '')` on POSIX: ensure a trailing slash on a
non-empty path (an empty path stays empty). -/
def ospath_join_empty2 (p : String) : String :=
  if p = "" then p
  else if p.toList.getLast? = some '/' then p
  else p ++ "/"

/-- The path canonicalization performed by `PathMetadataBase.save`
(backends.py lines 254-275) and mirrored by `MetadataNode.render`
(templatetags/seo.py lines 44-56): parse the path; when the append-slash
convention is enabled and the path component is non-empty, replace that
component by `os.path.join(path, '', '')`; when a query string is
present, re-encode it with its pairs sorted by key and store the
reassembled URL.  The assignment of the reassembled URL sits inside the
query branch in both call sites, so a path without a query string is
kept verbatim. -/
def PathMetadataBase.canonicalize (append_slash : Bool) (path : String) :
    String :=
  let parsed := urlparse path
  let parsed :=
    if append_slash then
      if parsed.path ≠ "" then
        { parsed with path := ospath_join_empty2 parsed.path }
      else parsed
    else parsed
  if parsed.query ≠ "" then
    let query_string := parse_qsl parsed.query
    let sorted_qs := sortByKey query_string
    let new_qs := urlencode sorted_qs
    urlunparse { parsed with query := new_qs }
  else path

/-! ## `MetadataBaseModel._resolve_template` and the variant
`_resolve_value` overrides (backends.py lines 79-88, 277-282, 354-359,
448-454, 549-553)

The Django template machinery is an external collaborator, abstracted as
a `TemplateEngine`: a rendering-context type `κ`, the empty `Context()`,
insertion of the content object (of opaque type `ι`) under its model
name, and `Template(value).render(context)`, which may raise.  Python
exceptions are split into `AttributeError` — the class the overrides
catch — and everything else (for example `TemplateSyntaxError`, raised
by `Template(...)` on malformed input).

The `PathMetadataBase` and `ModelInstanceMetadataBase` classes do not
declare a class-level default for their name-mangled `__context`
attribute, so reading it before `_process_context` ran raises
`AttributeError` (modelled by `CtxAttr.unset`); `ViewMetadataBase` and
`ModelMetadataBase` declare `__context = None`, so for them the
attribute always exists. -/

/-- A Python exception as the template step distinguishes them. -/
inductive PyErr where
  | attributeError
  | otherError
deriving DecidableEq, Repr

/-- The Django template machinery, abstracted over the rendering-context
type `κ` and the content-object type `ι`. -/
structure TemplateEngine (κ : Type) (ι : Type) where
  emptyContext : κ
  addObj : ι → κ → κ
  render : String → κ → Except PyErr String

/-- The left-brace character, the token `_resolve_template` scans for. -/
def braceChar : Char := Char.ofNat 123

/-- A one-character string holding the left brace. -/
def braceStr : String := braceChar.toString

/-- `MetadataBaseModel._resolve_template` (backends.py lines 79-88): a
string value containing a brace is rendered as a template against the
given context (an absent context is replaced by a fresh empty one, and
the model instance, when given, is inserted under its model name); any
other value is returned unmodified. -/
def MetadataBaseModel._resolve_template {κ ι : Type}
    (eng : TemplateEngine κ ι) (value : Value) (model_instance : Option ι)
    (context : Option κ) : Except PyErr Value :=
  match value with
  | .str s =>
    if s.toList.contains braceChar then
      let ctx := match context with
        | Option.none => eng.emptyContext
        | some c => c
      let ctx := match model_instance with
        | Option.none => ctx
        | some m => eng.addObj m ctx
      (eng.render s ctx).map Value.str
    else .ok value
  | .none => .ok value

/-- The state of a name-mangled `__context` attribute without a class
default: `unset` reads raise `AttributeError`. -/
inductive CtxAttr (κ : Type) where
  | unset
  | val (c : Option κ)

/-- `PathMetadataBase._resolve_value` (backends.py lines 277-282): the
base resolution followed by the template step, with `AttributeError`
(from the unset `__context` attribute or from inside the template step)
caught and the unrendered value returned; other exceptions propagate. -/
def PathMetadataBase._resolve_value {κ ι : Type} (eng : TemplateEngine κ ι)
    (m : MetaModel) (rec : Record) (ctx : CtxAttr κ) (fuel : Nat)
    (name : String) : Option (Except PyErr Value) :=
  (MetadataBaseModel._resolve_value m rec fuel name).map fun value =>
    match ctx with
    | .unset => .ok value
    | .val c =>
      match MetadataBaseModel._resolve_template eng value Option.none c with
      | .ok v => Except.ok v
      | .error .attributeError => Except.ok value
      | .error e => Except.error e

/-- `ViewMetadataBase._resolve_value` (backends.py lines 354-359): as
for Path, but the class declares `__context = None`, so the attribute
always exists. -/
def ViewMetadataBase._resolve_value {κ ι : Type} (eng : TemplateEngine κ ι)
    (m : MetaModel) (rec : Record) (ctx : Option κ) (fuel : Nat)
    (name : String) : Option (Except PyErr Value) :=
  (MetadataBaseModel._resolve_value m rec fuel name).map fun value =>
    match MetadataBaseModel._resolve_template eng value Option.none ctx with
    | .ok v => Except.ok v
    | .error .attributeError => Except.ok value
    | .error e => Except.error e

/-- `ModelInstanceMetadataBase._resolve_value` (backends.py lines
448-454): as for Path, additionally passing the linked content object
to the template step. -/
def ModelInstanceMetadataBase._resolve_value {κ ι : Type}
    (eng : TemplateEngine κ ι) (m : MetaModel) (rec : Record)
    (content_object : Option ι) (ctx : CtxAttr κ) (fuel : Nat)
    (name : String) : Option (Except PyErr Value) :=
  (MetadataBaseModel._resolve_value m rec fuel name).map fun value =>
    match ctx with
    | .unset => .ok value
    | .val c =>
      match MetadataBaseModel._resolve_template eng value content_object c with
      | .ok v => Except.ok v
      | .error .attributeError => Except.ok value
      | .error e => Except.error e

/-- `ModelMetadataBase._resolve_value` (backends.py lines 549-553): the
base resolution followed by the template step with the content object of
the threaded `model_instance` — and no exception handler at all.  The
class declares `__instance = None` and `__context = None`, so the
attribute reads themselves cannot raise; `inst_content_object` models
`getattr(self.__instance, '_content_object', None)`. -/
def ModelMetadataBase._resolve_value {κ ι : Type}
    (eng : TemplateEngine κ ι) (m : MetaModel) (rec : Record)
    (inst_content_object : Option ι) (ctx : Option κ) (fuel : Nat)
    (name : String) : Option (Except PyErr Value) :=
  (MetadataBaseModel._resolve_value m rec fuel name).map fun value =>
    MetadataBaseModel._resolve_template eng value inst_content_object ctx

/-! ## Context threading: `ModelInstanceMetadataBase._process_context`
(backends.py lines 440-443) and `ModelBackend.get_instances`
(backends.py lines 476-489)

The shared resolution context is a Python dict; the keys the engine
reads and writes are modelled as optional fields (`Option.none` = key
absent).  A falsy (`None` or empty) context argument is modelled as
`Option.none` at the call site.  A content type is modelled by its
numeric id; a content object is a pair (content type id, object id),
`ContentType.objects.get_for_model` being the first projection.  An
empty (falsy) `view_context` dict is likewise folded into
`Option.none`. -/

/-- The `view_context` sub-mapping: the engine only ever reads its
`object` entry (a content object). -/
structure ViewContext where
  object : Option (Nat × Nat)
deriving DecidableEq, Repr

/-- The shared resolution context dict with the keys the backends read
and write. -/
structure SeoContext where
  view_context : Option ViewContext
  content_type : Option Nat
  model_instance : Option MIRow
deriving DecidableEq, Repr

/-- `ModelInstanceMetadataBase._process_context` (backends.py lines
440-443): capture `view_context` for later template rendering and write
the matched record's content type and the record itself into the shared
context.  Returns the captured view context and the updated context. -/
def ModelInstanceMetadataBase._process_context (record : MIRow)
    (context : SeoContext) : Option ViewContext × SeoContext :=
  (context.view_context,
   { context with
      content_type := some record._content_type,
      model_instance := some record })

/-- A ModelMetadata row: keyed by content type alone. -/
structure ModelRow where
  _content_type : Nat
deriving DecidableEq, Repr

/-- `ModelBackend.get_instances` (backends.py lines 476-489): without a
truthy context the method returns `None`; otherwise the content type is
taken from the `content_type` key, or failing that from the content type
of the `object` entry of `view_context`; with a content type in hand the
candidates are filtered to it, otherwise `None` is returned. -/
def ModelBackend.get_instances (queryset : List ModelRow)
    (context : Option SeoContext) : Option (List ModelRow) :=
  match context with
  | Option.none => Option.none
  | some ctx =>
    let content_type : Option Nat :=
      match ctx.content_type with
      | some ct => some ct
      | Option.none =>
        match ctx.view_context with
        | some view_context =>
          match view_context.object with
          | some obj => some obj.1
          | Option.none => Option.none
        | Option.none => Option.none
    match content_type with
    | some ct => some (queryset.filter fun r => r._content_type == ct)
    | Option.none => Option.none

/-! ## `BaseManager.on_current_site` and `BaseManager.by_params`
(backends.py lines 91-111)

A queryset is modelled as a list of rows.  A row carries the optional
axis fields; `Option.none` models SQL NULL.  `on_current_site` is the raw
SQL filter `_site_id IS NULL OR _site_id=%s`; its argument here is the
already-resolved requested site id (the Python method resolves a `Site`
object, a domain string or `settings.SITE_ID` to that id first).
`order_by('_all_subdomains')` sorts ascending on the boolean flag, which
is modelled by a stable partition: rows with the flag unset come first. -/

/-- A stored metadata row as seen by the scoping manager. -/
structure ScopedRecord where
  _site : Option Nat
  _language : Option String
  _subdomain : Option String
  _all_subdomains : Bool
deriving DecidableEq, Repr

/-- `BaseManager.on_current_site` (backends.py lines 92-101). -/
def BaseManager.on_current_site
    (records : List ScopedRecord) (site_id : Nat) : List ScopedRecord :=
  records.filter fun r => r._site.isNone || r._site == some site_id

/-- `BaseManager.by_params` (backends.py lines 103-111).  The `language`
filter runs only when the argument is truthy (not `None`, not `""`); the
`subdomain` filter runs whenever the argument `is not None`, keeping rows
whose `_subdomain` equals the request or whose `_all_subdomains` flag is
set, ordered by the flag ascending. -/
def BaseManager.by_params (records : List ScopedRecord) (site_id : Nat)
    (language : Option String) (subdomain : Option String) :
    List ScopedRecord :=
  let queryset := BaseManager.on_current_site records site_id
  let queryset :=
    match language with
    | some l =>
      if l = "" then queryset
      else queryset.filter fun r => r._language == some l
    | Option.none => queryset
  match subdomain with
  | some sd =>
    let filtered :=
      queryset.filter fun r => r._subdomain == some sd || r._all_subdomains
    let part := filtered.partition fun r => !r._all_subdomains
    part.1 ++ part.2
  | Option.none => queryset

end DjangoSeo

namespace DjangoSeo

/-! ## Order properties of the query-pair key comparison -/

/-- Totality of the lexicographic comparison. -/
theorem charListLe_total : ∀ x y : List Char,
    charListLe x y = true ∨ charListLe y x = true
  | [], _ => Or.inl rfl
  | _ :: _, [] => Or.inr rfl
  | a :: as, b :: bs => by
    simp only [charListLe]
    rcases Nat.lt_trichotomy a.toNat b.toNat with h | h | h
    · left
      simp [h]
    · rcases charListLe_total as bs with ih | ih
      · left
        simp [h, Nat.lt_irrefl, ih]
      · right
        simp [h, Nat.lt_irrefl, ih]
    · right
      simp [h]

/-- Transitivity of the lexicographic comparison. -/
theorem charListLe_trans : ∀ x y z : List Char, charListLe x y = true →
    charListLe y z = true → charListLe x z = true
  | [], _, _, _, _ => rfl
  | _ :: _, [], _, h1, _ => by simp [charListLe] at h1
  | _ :: _, _ :: _, [], _, h2 => by simp [charListLe] at h2
  | a :: as, b :: bs, c :: cs, h1, h2 => by
    simp only [charListLe] at h1 h2 ⊢
    by_cases hab : a.toNat < b.toNat
    · by_cases hbc : b.toNat < c.toNat
      · rw [if_pos (by omega)]
      · rw [if_neg hbc] at h2
        by_cases hcb : c.toNat < b.toNat
        · rw [if_pos hcb] at h2
          exact absurd h2 (by simp)
        · rw [if_pos (by omega)]
    · by_cases hba : b.toNat < a.toNat
      · rw [if_neg hab, if_pos hba] at h1
        exact absurd h1 (by simp)
      · rw [if_neg hab, if_neg hba] at h1
        by_cases hbc : b.toNat < c.toNat
        · rw [if_pos (by omega)]
        · rw [if_neg hbc] at h2
          by_cases hcb : c.toNat < b.toNat
          · rw [if_pos hcb] at h2
            exact absurd h2 (by simp)
          · rw [if_neg hcb] at h2
            rw [if_neg (by omega), if_neg (by omega)]
            exact charListLe_trans as bs cs h1 h2

/-- Antisymmetry of the lexicographic comparison. -/
theorem charListLe_antisymm : ∀ x y : List Char, charListLe x y = true →
    charListLe y x = true → x = y
  | [], [], _, _ => rfl
  | [], _ :: _, _, h2 => by simp [charListLe] at h2
  | _ :: _, [], h1, _ => by simp [charListLe] at h1
  | a :: as, b :: bs, h1, h2 => by
    simp only [charListLe] at h1 h2
    rcases Nat.lt_trichotomy a.toNat b.toNat with hab | hab | hab
    · rw [if_neg (by omega), if_pos (by omega)] at h2
      exact absurd h2 (by simp)
    · have hba : a = b := by
        have := congrArg Char.ofNat hab
        simpa [Char.ofNat_toNat] using this
      rw [if_neg (by omega), if_neg (by omega)] at h1 h2
      rw [hba, charListLe_antisymm as bs h1 h2]
    · rw [if_neg (by omega), if_pos (by omega)] at h1
      exact absurd h1 (by simp)

/-- A weakly smaller pair with a different key is strictly smaller. -/
theorem qslLt_of_qslLe_of_ne {a b : String × String} (h : qslLe a b)
    (hne : a.1 ≠ b.1) : qslLt a b := by
  unfold qslLe at h
  unfold qslLt
  cases hlb : charListLe b.1.toList a.1.toList with
  | false => rfl
  | true =>
    exact absurd
      (String.toList_inj.mp (charListLe_antisymm _ _ h hlb)) hne

/-- Stable sorting by key maps permuted pair lists with pairwise
distinct keys to the same output. -/
theorem sortByKey_eq_of_perm_nodup (l1 l2 : List (String × String))
    (hperm : l1.Perm l2)
    (hnodup : l1.Pairwise fun a b => a.1 ≠ b.1) :
    sortByKey l1 = sortByKey l2 := by
  have htot : IsTotal (String × String) qslLe :=
    ⟨fun a b => charListLe_total a.1.toList b.1.toList⟩
  have htrans : IsTrans (String × String) qslLe :=
    ⟨fun a b c h1 h2 => charListLe_trans _ _ _ h1 h2⟩
  have hanti : IsAntisymm (String × String) qslLt :=
    ⟨fun a b h1 h2 => by
      unfold qslLt at h1 h2
      rcases charListLe_total a.1.toList b.1.toList with h | h
      · rw [h2] at h
        exact absurd h (by simp)
      · rw [h1] at h
        exact absurd h (by simp)⟩
  have hs1 : (sortByKey l1).Pairwise qslLe :=
    @List.sorted_insertionSort _ qslLe _ htot htrans l1
  have hs2 : (sortByKey l2).Pairwise qslLe :=
    @List.sorted_insertionSort _ qslLe _ htot htrans l2
  have hp1 : (sortByKey l1).Perm l1 := List.perm_insertionSort qslLe l1
  have hp2 : (sortByKey l2).Perm l2 := List.perm_insertionSort qslLe l2
  have hp12 : (sortByKey l1).Perm (sortByKey l2) :=
    (hp1.trans hperm).trans hp2.symm
  have hn1 : (sortByKey l1).Pairwise fun a b => a.1 ≠ b.1 :=
    (hp1.pairwise_iff fun h => Ne.symm h).mpr hnodup
  have hn2 : (sortByKey l2).Pairwise fun a b => a.1 ≠ b.1 :=
    (hp2.pairwise_iff fun h => Ne.symm h).mpr
      ((hperm.pairwise_iff fun h => Ne.symm h).mp hnodup)
  have hlt1 : (sortByKey l1).Pairwise qslLt :=
    (hs1.and hn1).imp fun h => qslLt_of_qslLe_of_ne h.1 h.2
  have hlt2 : (sortByKey l2).Pairwise qslLt :=
    (hs2.and hn2).imp fun h => qslLt_of_qslLe_of_ne h.1 h.2
  exact @List.eq_of_perm_of_sorted _ qslLt hanti _ _ hp12 hlt1 hlt2

/-! ## Theorems for claims C1, C2, C3 -/

/-- C1.  Resolution precedence: for every metadata record and declared
field name, if the field is editable and the record holds a non-empty
stored value for it, `_resolve_value` returns that stored value verbatim,
whatever `populate_from` is declared for the field. -/
theorem resolve_value_precedence
    (m : MetaModel) (rec : Record) (fuel : Nat) (name : String)
    (element : Element)
    (helem : m.elements name = some element)
    (hed : element.editable = true)
    (hval : (rec.stored name).truthy = true) :
    MetadataBaseModel._resolve_value m rec (fuel + 1) name
      = some (rec.stored name) := by
  simp [MetadataBaseModel._resolve_value, helem, hed, hval]

/-- Witness for C1: a concrete record with both a stored value and a
populate-from callable resolves to the stored value. -/
theorem resolve_value_precedence_witness :
    MetadataBaseModel._resolve_value
      ⟨fun n => if n = "title" then
          some ⟨true, .call fun _ _ => Value.str "default"⟩
        else Option.none,
       fun _ => Option.none⟩
      ⟨fun n => if n = "title" then Value.str "stored" else Value.none, []⟩
      1 "title" = some (Value.str "stored") := by
  have h := resolve_value_precedence
    ⟨fun n => if n = "title" then
        some ⟨true, .call fun _ _ => Value.str "default"⟩
      else Option.none,
     fun _ => Option.none⟩
    ⟨fun n => if n = "title" then Value.str "stored" else Value.none, []⟩
    0 "title"
    ⟨true, .call fun _ _ => Value.str "default"⟩
    (by simp) (by simp) (by simp [Value.truthy])
  simpa using h

/-- C2.  Populate-from fallback on an empty stored value: for an editable
declared field whose stored value is empty (`None` or `""`) and whose
populate-from is a callable, `_resolve_value` returns the result of
invoking the callable with the record and the variant-specific kwargs; an
explicitly stored empty value never short-circuits resolution. -/
theorem resolve_value_populate_from_callable
    (m : MetaModel) (rec : Record) (fuel : Nat) (name : String)
    (element : Element) (f : Record → Kwargs → Value)
    (helem : m.elements name = some element)
    (hed : element.editable = true)
    (hempty : (rec.stored name).truthy = false)
    (hpf : element.populate_from = .call f) :
    MetadataBaseModel._resolve_value m rec (fuel + 1) name
      = some (f rec rec.kwargs) := by
  simp [MetadataBaseModel._resolve_value, helem, hed, hempty, hpf]

/-- Witness for C2: a record storing the empty string for an editable
field resolves via the populate-from callable, not to the empty value. -/
theorem resolve_value_populate_from_callable_witness :
    MetadataBaseModel._resolve_value
      ⟨fun n => if n = "title" then
          some ⟨true, .call fun _ _ => Value.str "computed"⟩
        else Option.none,
       fun _ => Option.none⟩
      ⟨fun n => if n = "title" then Value.str "" else Value.none, []⟩
      1 "title" = some (Value.str "computed") := by
  have h := resolve_value_populate_from_callable
    ⟨fun n => if n = "title" then
        some ⟨true, .call fun _ _ => Value.str "computed"⟩
      else Option.none,
     fun _ => Option.none⟩
    ⟨fun n => if n = "title" then Value.str "" else Value.none, []⟩
    0 "title"
    ⟨true, .call fun _ _ => Value.str "computed"⟩
    (fun _ _ => Value.str "computed")
    (by simp) (by simp) (by simp [Value.truthy]) (by simp)
  simpa using h

/-- C3.  Alias resolution equivalence: when field `a` has no non-empty
stored value and its populate-from is the name of another field `b`,
resolving `a` returns exactly what resolving `b` directly on the same
record returns (whenever that resolution terminates; the extra unit of
fuel accounts for the one recursive call the source makes). -/
theorem resolve_value_alias
    (m : MetaModel) (rec : Record) (fuel : Nat) (a b : String)
    (element : Element) (v : Value)
    (helem : m.elements a = some element)
    (hempty : (rec.stored a).truthy = false)
    (halias : element.populate_from = .alias b)
    (hb : MetadataBaseModel._resolve_value m rec fuel b = some v) :
    MetadataBaseModel._resolve_value m rec (fuel + 1) a = some v := by
  have hcond : (element.editable && (rec.stored a).truthy) = false := by
    simp [hempty]
  simp [MetadataBaseModel._resolve_value, helem, hcond, halias, hb]

/-- Witness for C3: a field aliased to another resolves to the target
field's stored value. -/
theorem resolve_value_alias_witness :
    MetadataBaseModel._resolve_value
      ⟨fun n => if n = "og_title" then some ⟨true, .alias "title"⟩
        else if n = "title" then some ⟨true, .notSet⟩
        else Option.none,
       fun _ => Option.none⟩
      ⟨fun n => if n = "title" then Value.str "Home" else Value.none, []⟩
      2 "og_title" = some (Value.str "Home") := by
  have h := resolve_value_alias
    ⟨fun n => if n = "og_title" then some ⟨true, .alias "title"⟩
      else if n = "title" then some ⟨true, .notSet⟩
      else Option.none,
     fun _ => Option.none⟩
    ⟨fun n => if n = "title" then Value.str "Home" else Value.none, []⟩
    1 "og_title" "title"
    ⟨true, .alias "title"⟩ (Value.str "Home")
    (by simp) (by simp [Value.truthy]) (by simp)
    (by simp [MetadataBaseModel._resolve_value, Value.truthy])
  simpa using h

/-- C7.  Composite uniqueness derivation: for every backend declaration
and every `Options` value, `get_unique_together` returns the declared
tuples each extended with `_site` iff `use_sites`, `_language` iff
`use_i18n` and `_subdomain` iff `use_subdomains`; the tuples are otherwise
unchanged and their order is preserved (the result is exactly the `map`
of suffix-appending over the declared list). -/
theorem get_unique_together_appends_axis_fields
    (unique_together : List (List String)) (options : Options) :
    MetadataBackend.get_unique_together unique_together options
      = unique_together.map (fun t => t ++ axisSuffix options) := by
  unfold MetadataBackend.get_unique_together axisSuffix
  cases hs : options.use_sites <;> cases hi : options.use_i18n <;>
    cases hd : options.use_subdomains <;> simp

/-- Helper: concatenating the two halves of a stable partition preserves
membership. -/
theorem mem_partition_parts_append {α : Type} {p : α → Bool} {l : List α}
    {a : α} : a ∈ (l.partition p).1 ++ (l.partition p).2 ↔ a ∈ l := by
  simp only [List.partition_eq_filter_filter, List.mem_append,
    List.mem_filter, Function.comp, Bool.not_eq_true']
  rcases Bool.eq_false_or_eq_true (p a) with h | h <;> simp [h]

/-- Helper: membership in the site-scope filter of `on_current_site`. -/
theorem mem_on_current_site {records : List ScopedRecord} {site_id : Nat}
    {r : ScopedRecord} :
    r ∈ BaseManager.on_current_site records site_id ↔
      r ∈ records ∧ (r._site = Option.none ∨ r._site = some site_id) := by
  simp [BaseManager.on_current_site, List.mem_filter,
    Option.isNone_iff_eq_none]

/-- Helper: the two halves of the `_all_subdomains` partition split the
list into a flag-unset block followed by a flag-set block. -/
theorem partition_flag_split (l : List ScopedRecord) :
    ∃ xs ys,
      ((l.partition fun r => !r._all_subdomains).1
        ++ (l.partition fun r => !r._all_subdomains).2) = xs ++ ys
      ∧ (∀ r ∈ xs, r._all_subdomains = false)
      ∧ (∀ r ∈ ys, r._all_subdomains = true) := by
  refine ⟨(l.partition fun r => !r._all_subdomains).1,
          (l.partition fun r => !r._all_subdomains).2, rfl, ?_, ?_⟩
  · intro r hr
    simp only [List.partition_eq_filter_filter, List.mem_filter,
      Bool.not_eq_true'] at hr
    exact hr.2
  · intro r hr
    simp only [List.partition_eq_filter_filter, List.mem_filter,
      Function.comp, Bool.not_eq_true', Bool.not_eq_false] at hr
    simpa using hr.2

/-- C6.  Query-scope visibility: a row is in the filtered candidate set
iff its `_site` is NULL or equals the requested site, its `_language`
equals any requested (truthy) language, and, when a subdomain is
requested, its `_subdomain` equals the request or its `_all_subdomains`
flag is set; among subdomain candidates all exact-subdomain rows (flag
unset) are ordered before all-subdomain rows (flag set); concretely a
`_subdomain="shop"` row beats an `_all_subdomains` row under `"shop"`, a
`_site=NULL` row is visible for every requested site, and a `_site=1` row
is invisible when requesting site 2. -/
theorem by_params_visibility :
    (∀ (records : List ScopedRecord) (site_id : Nat)
        (language subdomain : Option String) (r : ScopedRecord),
      r ∈ BaseManager.by_params records site_id language subdomain ↔
        r ∈ records
        ∧ (r._site = Option.none ∨ r._site = some site_id)
        ∧ (∀ l, language = some l → l ≠ "" → r._language = some l)
        ∧ (∀ s, subdomain = some s →
            (r._subdomain = some s ∨ r._all_subdomains = true)))
    ∧ (∀ (records : List ScopedRecord) (site_id : Nat)
        (language : Option String) (sd : String),
      ∃ xs ys,
        BaseManager.by_params records site_id language (some sd) = xs ++ ys
        ∧ (∀ r ∈ xs, r._all_subdomains = false)
        ∧ (∀ r ∈ ys, r._all_subdomains = true))
    ∧ (∀ site_id : Nat,
      BaseManager.by_params
        [⟨Option.none, Option.none, Option.none, true⟩,
         ⟨Option.none, Option.none, some "shop", false⟩]
        site_id Option.none (some "shop")
      = [⟨Option.none, Option.none, some "shop", false⟩,
         ⟨Option.none, Option.none, Option.none, true⟩])
    ∧ (∀ site_id : Nat,
      (⟨Option.none, Option.none, Option.none, false⟩ : ScopedRecord) ∈
        BaseManager.by_params
          [⟨Option.none, Option.none, Option.none, false⟩]
          site_id Option.none Option.none)
    ∧ BaseManager.by_params
        [⟨some 1, Option.none, Option.none, false⟩] 2 Option.none
        Option.none = [] := by
  refine ⟨?_, ?_, ?_, ?_, ?_⟩
  · intro records site_id language subdomain r
    unfold BaseManager.by_params
    cases language with
    | none =>
      cases subdomain with
      | none => simp [mem_on_current_site]
      | some sd =>
        simp only [mem_partition_parts_append, List.mem_filter,
          mem_on_current_site]
        constructor
        · rintro ⟨⟨hr, hs⟩, hsd⟩
          exact ⟨hr, hs, by simp, by simpa using hsd⟩
        · rintro ⟨hr, hs, -, hsd⟩
          exact ⟨⟨hr, hs⟩, by simpa using hsd sd rfl⟩
    | some l =>
      by_cases hl : l = ""
      · subst hl
        cases subdomain with
        | none => simp [mem_on_current_site]
        | some sd =>
          simp only [eq_self_iff_true, if_true, mem_partition_parts_append,
            List.mem_filter, mem_on_current_site]
          constructor
          · rintro ⟨⟨hr, hs⟩, hsd⟩
            exact ⟨hr, hs, by simp, by simpa using hsd⟩
          · rintro ⟨hr, hs, -, hsd⟩
            exact ⟨⟨hr, hs⟩, by simpa using hsd sd rfl⟩
      · cases subdomain with
        | none =>
          simp only [if_neg hl, List.mem_filter, mem_on_current_site]
          constructor
          · rintro ⟨⟨hr, hs⟩, hlang⟩
            exact ⟨hr, hs, by intro x hx _; cases hx; simpa using hlang,
              by simp⟩
          · rintro ⟨hr, hs, hlang, -⟩
            exact ⟨⟨hr, hs⟩, by simpa using hlang l rfl hl⟩
        | some sd =>
          simp only [if_neg hl, mem_partition_parts_append,
            List.mem_filter, mem_on_current_site]
          constructor
          · rintro ⟨⟨⟨hr, hs⟩, hlang⟩, hsd⟩
            exact ⟨hr, hs, by intro x hx _; cases hx; simpa using hlang,
              by simpa using hsd⟩
          · rintro ⟨hr, hs, hlang, hsd⟩
            exact ⟨⟨⟨hr, hs⟩, by simpa using hlang l rfl hl⟩,
              by simpa using hsd sd rfl⟩
  · intro records site_id language sd
    unfold BaseManager.by_params
    exact partition_flag_split _
  · intro site_id
    simp [BaseManager.by_params, BaseManager.on_current_site,
      List.partition_eq_filter_filter, List.filter]
  · intro site_id
    simp [BaseManager.by_params, BaseManager.on_current_site]
  · rfl

/-- Witness for C6: the membership characterization evaluated at a
concrete row, requested site, language and subdomain. -/
theorem by_params_visibility_witness :
    (⟨Option.none, some "en", some "shop", false⟩ : ScopedRecord) ∈
      BaseManager.by_params
        [⟨Option.none, some "en", some "shop", false⟩]
        3 (some "en") (some "shop") :=
  (by_params_visibility.1 _ 3 (some "en") (some "shop") _).mpr
    (by refine ⟨by simp, Or.inl rfl, ?_, ?_⟩ <;> intro x hx <;>
      simp_all)

/-- C8.  Duplicate-key save swallow: `ModelInstanceMetadataBase.save`
never surfaces an error to the caller; when the insert violates the
derived composite uniqueness constraint the conflict is discarded and the
store is left unchanged (no retry); hence saving two records with
identical derived keys raises no error and leaves exactly one persisted
row. -/
theorem model_instance_save_swallows_duplicates :
    (∀ (options : Options) (store : List MIRow) (r : MIRow),
      ∃ s, ModelInstanceMetadataBase.save options store r = .ok s)
    ∧ (∀ (options : Options) (store : List MIRow) (r : MIRow),
        (store.any fun ex => uniqueConflict
            (MetadataBackend.get_unique_together
              ModelInstanceBackend.unique_together options)
            ex r.derivePath) = true →
        ModelInstanceMetadataBase.save options store r = .ok store)
    ∧ (∀ (options : Options) (r1 r2 : MIRow),
        ((MetadataBackend.get_unique_together
            ModelInstanceBackend.unique_together options).all fun ut =>
          ut.all fun f => r1.derivePath.field f == r2.derivePath.field f)
            = true →
        ∃ s1, ModelInstanceMetadataBase.save options [] r1 = .ok s1
          ∧ s1.length = 1
          ∧ ModelInstanceMetadataBase.save options s1 r2 = .ok s1) := by
  refine ⟨?_, ?_, ?_⟩
  · intro options store r
    unfold ModelInstanceMetadataBase.save
    dsimp only
    split
    · exact ⟨_, rfl⟩
    · exact ⟨_, rfl⟩
  · intro options store r hconf
    unfold ModelInstanceMetadataBase.save djangoSuperSave
    dsimp only
    rw [if_pos hconf]
  · intro options r1 r2 hkeys
    refine ⟨[r1.derivePath], rfl, rfl, ?_⟩
    have hconf : ([r1.derivePath].any fun ex =>
        uniqueConflict (MetadataBackend.get_unique_together
          ModelInstanceBackend.unique_together options)
          ex r2.derivePath) = true := by
      simp only [List.any_cons, List.any_nil, Bool.or_false]
      simp only [uniqueConflict, MetadataBackend.get_unique_together,
        ModelInstanceBackend.unique_together, List.map_cons, List.map_nil,
        List.any_cons, List.any_nil, List.all_cons, List.all_nil,
        Bool.and_true, Bool.or_false, Bool.and_eq_true] at hkeys ⊢
      rcases hkeys with ⟨h1, -⟩
      simp only [Bool.or_eq_true]
      exact Or.inl h1
    unfold ModelInstanceMetadataBase.save djangoSuperSave
    dsimp only
    rw [if_pos hconf]

/-- Witness for C8: saving the same concrete row twice leaves exactly one
persisted row, with no error on either save. -/
theorem model_instance_save_swallows_duplicates_witness :
    ∃ s1, ModelInstanceMetadataBase.save ⟨false, false, false, []⟩ []
            ⟨"/p/", 1, 7, Option.none, Option.none, Option.none,
              some "/obj/"⟩ = .ok s1
      ∧ s1.length = 1
      ∧ ModelInstanceMetadataBase.save ⟨false, false, false, []⟩ s1
            ⟨"/p/", 1, 7, Option.none, Option.none, Option.none,
              some "/obj/"⟩ = .ok s1 :=
  model_instance_save_swallows_duplicates.2.2 ⟨false, false, false, []⟩
    ⟨"/p/", 1, 7, Option.none, Option.none, Option.none, some "/obj/"⟩
    ⟨"/p/", 1, 7, Option.none, Option.none, Option.none, some "/obj/"⟩
    (by decide)

/-- C10.  Context threading from ModelInstance to Model: processing a
matched ModelInstance record writes its content type under
`content_type` and the record under `model_instance` into the shared
context; `ModelBackend.get_instances` then filters candidates by exactly
that content type, falls back to the content type of the `object` entry
of `view_context`, and yields no candidates at all when the context is
absent or carries neither source of a content type. -/
theorem context_threading_modelinstance_to_model :
    (∀ (record : MIRow) (context : SeoContext),
      (ModelInstanceMetadataBase._process_context record
          context).2.content_type = some record._content_type
      ∧ (ModelInstanceMetadataBase._process_context record
          context).2.model_instance = some record)
    ∧ (∀ (queryset : List ModelRow) (record : MIRow)
        (context : SeoContext),
      ModelBackend.get_instances queryset
          (some (ModelInstanceMetadataBase._process_context record
            context).2)
        = some (queryset.filter fun r =>
            r._content_type == record._content_type))
    ∧ (∀ (queryset : List ModelRow) (vc : ViewContext) (ct oid : Nat),
      vc.object = some (ct, oid) →
      ModelBackend.get_instances queryset
          (some ⟨some vc, Option.none, Option.none⟩)
        = some (queryset.filter fun r => r._content_type == ct))
    ∧ (∀ queryset : List ModelRow,
        ModelBackend.get_instances queryset Option.none = Option.none)
    ∧ (∀ (queryset : List ModelRow) (ctx : SeoContext),
      ctx.content_type = Option.none →
      (ctx.view_context = Option.none
        ∨ ∃ vc, ctx.view_context = some vc ∧ vc.object = Option.none) →
      ModelBackend.get_instances queryset (some ctx) = Option.none) := by
  refine ⟨?_, ?_, ?_, ?_, ?_⟩
  · intro record context
    exact ⟨rfl, rfl⟩
  · intro queryset record context
    rfl
  · intro queryset vc ct oid hobj
    unfold ModelBackend.get_instances
    simp [hobj]
  · intro queryset
    rfl
  · intro queryset ctx hct hvc
    unfold ModelBackend.get_instances
    rcases hvc with h | ⟨vc, hv, hobj⟩
    · simp [hct, h]
    · simp [hct, hv, hobj]

/-- Witness for C10: the view-context fallback filters a concrete
queryset down to the rows of the content type of the context object. -/
theorem context_threading_modelinstance_to_model_witness :
    ModelBackend.get_instances [⟨3⟩, ⟨4⟩]
        (some ⟨some ⟨some (3, 9)⟩, Option.none, Option.none⟩)
      = some [⟨3⟩] := by
  rw [context_threading_modelinstance_to_model.2.2.1 [⟨3⟩, ⟨4⟩]
    ⟨some (3, 9)⟩ 3 9 rfl]
  decide

/-- Helper: on a path whose parse carries a query string, `canonicalize`
rebuilds the URL from the slash-adjusted path component and the
key-sorted, re-encoded query. -/
theorem canonicalize_query_branch (append_slash : Bool) (p : String)
    (hq : (urlparse p).query ≠ "") :
    PathMetadataBase.canonicalize append_slash p
      = urlunparse
          { urlparse p with
            path :=
              if append_slash = true ∧ (urlparse p).path ≠ "" then
                ospath_join_empty2 (urlparse p).path
              else (urlparse p).path,
            query :=
              urlencode (sortByKey (parse_qsl (urlparse p).query)) } := by
  unfold PathMetadataBase.canonicalize
  dsimp only
  cases append_slash with
  | false =>
    rw [if_neg Bool.false_ne_true, if_pos hq,
      if_neg (by rintro ⟨h, -⟩; exact Bool.false_ne_true h)]
  | true =>
    by_cases hp : (urlparse p).path = ""
    · rw [if_pos (show true = true from rfl),
        if_neg (not_not_intro hp), if_pos hq,
        if_neg (show ¬((true = true) ∧ (urlparse p).path ≠ "") from
          fun hc => hc.2 hp)]
    · rw [if_pos (show true = true from rfl), if_pos hp]
      dsimp only
      rw [if_pos hq,
        if_pos (show (true = true) ∧ (urlparse p).path ≠ "" from
          ⟨rfl, hp⟩)]

/-- C4 counterexample: the canonicalization of `PathMetadataBase.save`
does not behave as claimed on two explicit inputs.  With the
append-slash convention enabled, the path `"/docs"` (no query string,
not ending in a filename) is stored unchanged rather than with a
trailing slash appended, because the write-back of the rewritten URL
sits inside the query-string branch; and `"/a/file.txt?b=2&a=1"`, whose
path component ends in a filename, receives a trailing slash anyway. -/
theorem canonicalize_counterexample :
    PathMetadataBase.canonicalize true "/docs" = "/docs"
    ∧ PathMetadataBase.canonicalize true "/a/file.txt?b=2&a=1"
        = "/a/file.txt/?a=1&b=2" := ⟨rfl, rfl⟩

/-- C4 (amended).  Canonicalization stores the path unchanged when it
has no query string (so no slash is appended there either); when a query
string is present, the path component gains a trailing slash whenever
append-slash is enabled and the component is non-empty (regardless of
any filename), and the query is re-encoded with its pairs sorted by key
— so two paths that differ only in the order of their (distinct-keyed)
query parameters canonicalize to the same stored path, e.g.
`"/x/?b=2&a=1"` and `"/x/?a=1&b=2"`. -/
theorem canonicalize_amended :
    (∀ (append_slash : Bool) (p : String),
      (urlparse p).query = "" →
      PathMetadataBase.canonicalize append_slash p = p)
    ∧ (∀ (append_slash : Bool) (p1 p2 : String),
      (urlparse p1).query ≠ "" → (urlparse p2).query ≠ "" →
      (urlparse p1).scheme = (urlparse p2).scheme →
      (urlparse p1).netloc = (urlparse p2).netloc →
      (urlparse p1).path = (urlparse p2).path →
      (urlparse p1).params = (urlparse p2).params →
      (urlparse p1).fragment = (urlparse p2).fragment →
      (parse_qsl (urlparse p1).query).Perm
        (parse_qsl (urlparse p2).query) →
      (parse_qsl (urlparse p1).query).Pairwise (fun a b => a.1 ≠ b.1) →
      PathMetadataBase.canonicalize append_slash p1
        = PathMetadataBase.canonicalize append_slash p2)
    ∧ (∀ append_slash : Bool,
      PathMetadataBase.canonicalize append_slash "/x/?b=2&a=1"
        = PathMetadataBase.canonicalize append_slash "/x/?a=1&b=2")
    ∧ PathMetadataBase.canonicalize true "/a/file.txt?b=2&a=1"
        = "/a/file.txt/?a=1&b=2" := by
  refine ⟨?_, ?_, ?_, rfl⟩
  · intro a p hq
    unfold PathMetadataBase.canonicalize
    dsimp only
    cases a with
    | false =>
      rw [if_neg Bool.false_ne_true, if_neg (by simp [hq])]
    | true =>
      by_cases hp : (urlparse p).path = ""
      · rw [if_pos (show true = true from rfl),
          if_neg (not_not_intro hp), if_neg (not_not_intro hq)]
      · rw [if_pos (show true = true from rfl), if_pos hp]
        dsimp only
        rw [if_neg (not_not_intro hq)]
  · intro a p1 p2 hq1 hq2 hs hn hp hpar hf hperm hnodup
    rw [canonicalize_query_branch a p1 hq1,
      canonicalize_query_branch a p2 hq2,
      sortByKey_eq_of_perm_nodup _ _ hperm hnodup]
    dsimp only
    rw [hs, hn, hp, hpar, hf]
  · intro a
    cases a <;> rfl

/-- Witness for C4 (amended): two concrete paths differing only in the
order of their query parameters canonicalize identically, via the
general query-permutation property. -/
theorem canonicalize_amended_witness :
    PathMetadataBase.canonicalize true "/y?b=2&a=1"
      = PathMetadataBase.canonicalize true "/y?a=1&b=2" :=
  canonicalize_amended.2.1 true "/y?b=2&a=1" "/y?a=1&b=2"
    (by decide) (by decide) rfl rfl rfl rfl rfl
    (by exact List.Perm.swap ("a", "1") ("b", "2") [])
    (by decide)

/-- C9 counterexample: the Model variant applies the template step with
no exception handler, so at this concrete input a substitution failure
(a `TemplateSyntaxError`-like failure from rendering a brace-bearing
stored value) propagates out of `_resolve_value` instead of being caught
and replaced by the unrendered value — refuting "for every backend
variant... the failure never propagates out of `_resolve_value`". -/
theorem model_resolve_value_propagates_template_failure :
    ModelMetadataBase._resolve_value
      (⟨(), fun _ c => c, fun _ _ => Except.error PyErr.otherError⟩ :
        TemplateEngine Unit Unit)
      ⟨fun n => if n = "title" then some ⟨true, .notSet⟩ else Option.none,
       fun _ => Option.none⟩
      ⟨fun n => if n = "title" then Value.str braceStr else Value.none, []⟩
      Option.none Option.none 1 "title"
      = some (Except.error PyErr.otherError) := rfl

/-- C9 (amended).  Template-substitution failure containment holds for
the Path, View and ModelInstance variants and for the `AttributeError`
failure class: reading the unset context attribute (Path/ModelInstance)
yields the unrendered value, and no `AttributeError` — from the unset
attribute or from inside the template step — ever escapes their
`_resolve_value`; the Model variant has no handler (its context
attribute defaults to `None`, so the unset case cannot arise there), and
other failure classes propagate in all variants. -/
theorem template_failure_containment :
    (∀ {κ ι : Type} (eng : TemplateEngine κ ι) (m : MetaModel)
        (rec : Record) (fuel : Nat) (name : String) (value : Value),
      MetadataBaseModel._resolve_value m rec fuel name = some value →
      PathMetadataBase._resolve_value eng m rec CtxAttr.unset fuel name
        = some (Except.ok value))
    ∧ (∀ {κ ι : Type} (eng : TemplateEngine κ ι) (m : MetaModel)
        (rec : Record) (ctx : CtxAttr κ) (fuel : Nat) (name : String)
        (r : Except PyErr Value),
      PathMetadataBase._resolve_value eng m rec ctx fuel name = some r →
      r ≠ Except.error PyErr.attributeError)
    ∧ (∀ {κ ι : Type} (eng : TemplateEngine κ ι) (m : MetaModel)
        (rec : Record) (ctx : Option κ) (fuel : Nat) (name : String)
        (r : Except PyErr Value),
      ViewMetadataBase._resolve_value eng m rec ctx fuel name = some r →
      r ≠ Except.error PyErr.attributeError)
    ∧ (∀ {κ ι : Type} (eng : TemplateEngine κ ι) (m : MetaModel)
        (rec : Record) (content_object : Option ι) (fuel : Nat)
        (name : String) (value : Value),
      MetadataBaseModel._resolve_value m rec fuel name = some value →
      ModelInstanceMetadataBase._resolve_value eng m rec content_object
        CtxAttr.unset fuel name = some (Except.ok value))
    ∧ (∀ {κ ι : Type} (eng : TemplateEngine κ ι) (m : MetaModel)
        (rec : Record) (content_object : Option ι) (ctx : CtxAttr κ)
        (fuel : Nat) (name : String) (r : Except PyErr Value),
      ModelInstanceMetadataBase._resolve_value eng m rec content_object
        ctx fuel name = some r →
      r ≠ Except.error PyErr.attributeError) := by
  refine ⟨?_, ?_, ?_, ?_, ?_⟩
  · intro κ ι eng m rec fuel name value hbase
    unfold PathMetadataBase._resolve_value
    rw [hbase]
    rfl
  · intro κ ι eng m rec ctx fuel name r hr
    unfold PathMetadataBase._resolve_value at hr
    cases hbase : MetadataBaseModel._resolve_value m rec fuel name with
    | none => rw [hbase] at hr; simp at hr
    | some value =>
      rw [hbase] at hr
      simp only [Option.map_some', Option.some.injEq] at hr
      subst hr
      cases ctx with
      | unset => simp
      | val c =>
        cases hres : MetadataBaseModel._resolve_template eng value
            Option.none c with
        | ok v => simp [hres]
        | error e => cases e <;> simp [hres]
  · intro κ ι eng m rec ctx fuel name r hr
    unfold ViewMetadataBase._resolve_value at hr
    cases hbase : MetadataBaseModel._resolve_value m rec fuel name with
    | none => rw [hbase] at hr; simp at hr
    | some value =>
      rw [hbase] at hr
      simp only [Option.map_some', Option.some.injEq] at hr
      subst hr
      cases hres : MetadataBaseModel._resolve_template eng value
          Option.none ctx with
      | ok v => simp [hres]
      | error e => cases e <;> simp [hres]
  · intro κ ι eng m rec content_object fuel name value hbase
    unfold ModelInstanceMetadataBase._resolve_value
    rw [hbase]
    rfl
  · intro κ ι eng m rec content_object ctx fuel name r hr
    unfold ModelInstanceMetadataBase._resolve_value at hr
    cases hbase : MetadataBaseModel._resolve_value m rec fuel name with
    | none => rw [hbase] at hr; simp at hr
    | some value =>
      rw [hbase] at hr
      simp only [Option.map_some', Option.some.injEq] at hr
      subst hr
      cases ctx with
      | unset => simp
      | val c =>
        cases hres : MetadataBaseModel._resolve_template eng value
            content_object c with
        | ok v => simp [hres]
        | error e => cases e <;> simp [hres]

/-- Witness for C9 (amended): on a concrete Path record whose context
attribute was never set, resolution returns the unrendered stored value
instead of failing. -/
theorem template_failure_containment_witness :
    PathMetadataBase._resolve_value
      (⟨(), fun _ c => c, fun _ _ => Except.error PyErr.otherError⟩ :
        TemplateEngine Unit Unit)
      ⟨fun n => if n = "descr" then some ⟨true, .notSet⟩ else Option.none,
       fun _ => Option.none⟩
      ⟨fun n => if n = "descr" then Value.str "plain" else Value.none, []⟩
      CtxAttr.unset 1 "descr" = some (Except.ok (Value.str "plain")) :=
  template_failure_containment.1
    (⟨(), fun _ c => c, fun _ _ => Except.error PyErr.otherError⟩ :
      TemplateEngine Unit Unit)
    ⟨fun n => if n = "descr" then some ⟨true, .notSet⟩ else Option.none,
     fun _ => Option.none⟩
    ⟨fun n => if n = "descr" then Value.str "plain" else Value.none, []⟩
    1 "descr" (Value.str "plain") rfl

/-- C5.  Backend ordering validation: a backend list with `"model"`
before `"modelinstance"` is rejected, a list with `"model"` but without
`"modelinstance"` is rejected, and `["modelinstance", "model"]` is
accepted — for every setting of the axis flags. -/
theorem model_backend_ordering_validation (s i18n sub : Bool) :
    (∃ msg, ModelBackend.validate ⟨s, i18n, sub, ["model", "modelinstance"]⟩
        = .error msg)
    ∧ (∃ msg, ModelBackend.validate ⟨s, i18n, sub, ["model"]⟩ = .error msg)
    ∧ ModelBackend.validate ⟨s, i18n, sub, ["modelinstance", "model"]⟩
        = .ok () :=
  ⟨⟨_, rfl⟩, ⟨_, rfl⟩, rfl⟩

end DjangoSeo
